import Mathlib

/-!
Verification of the embedding-index and similarity-search core of the
building-model retrieval app.

The definitions below are a shallow embedding of the Python source:
* `src/src/utils/ifc_processing.py` — `IFCProcessor.convert_to_text_chunks`
  (the text materializer);
* `src/src/utils/embedding.py` — `EmbeddingProcessor.generate_embeddings`,
  `find_most_similar`, `save_embeddings`, `load_embeddings`.

Python floats are modelled as exact numbers (a type parameter for the store,
`ℝ` for the similarity arithmetic, which uses a square root).  Python object
mutation is modelled by passing the processor state explicitly: a method that
can raise returns an `Except` of its result together with the state holding
every field assignment performed before the raise (Python mutations performed
before an exception persist).  The remote OpenAI calls are the only external
inputs; they enter as an explicit adapter function (for `generate_embeddings`)
or as the already-embedded query vector (for `find_most_similar`).
-/

/-- Property values observed in the element records: the IFC extractor stores
`prop.NominalValue.wrappedValue` (a number or a string) or `None`.  Numbers are
modelled as integers; Python renders an integer value the way `toString` does,
and an integer is truthy exactly when it is nonzero, a string exactly when it
is nonempty. -/
inductive PValue where
  | int (n : Int)
  | str (s : String)
deriving DecidableEq, Repr

/-- Python truthiness of a property value (`if value:`). -/
def PValue.truthy : PValue → Bool
  | .int n => n != 0
  | .str s => s != ""

/-- Python string interpolation of a property value (`f"{value}"`). -/
def PValue.render : PValue → String
  | .int n => toString n
  | .str s => s

/-- One entry of a property set: the dict `{'value': ..., 'unit': ...}` built
by `extract_element_data`; either field may be `None`. -/
structure PropData where
  value : Option PValue
  unit : Option String
deriving DecidableEq, Repr

/-- Python truthiness of an optional string (`if name:`, `if unit:`):
`None` and the empty string are falsy. -/
def strTruthy : Option String → Bool
  | none => false
  | some s => s != ""

/-- An element record as consumed by `convert_to_text_chunks`: the dict with
keys `type`, `name`, `description`, `properties`.  `none` models an absent key
(`element.get(...)` then yields `None`); `properties` is an insertion-ordered
mapping of property-set name to an insertion-ordered mapping of property name
to `PropData`, modelled as association lists. -/
structure Element where
  type : Option String := none
  name : Option String := none
  description : Option String := none
  properties : List (String × List (String × PropData)) := []
deriving DecidableEq, Repr

/-- The property line built in the inner loop of `convert_to_text_chunks`
(lines 243-250): `value = prop_data.get('value')`; `if value:` emit
`f"{prop_name}: {value}"`, appending `f" {unit}"` when the unit is truthy;
otherwise nothing. -/
def propLine (pn : String) (pd : PropData) : Option String :=
  match pd.value with
  | none => none
  | some v =>
    if v.truthy then
      some (pn ++ ": " ++ v.render ++ (if strTruthy pd.unit then " " ++ pd.unit.getD "" else ""))
    else none

/-- The lines contributed by one property set (lines 236-250): an empty set is
skipped (`if not properties: continue`), a non-empty set emits the
`Property Set:` header followed by the line of every truthy-valued property. -/
def psLines (ps : String × List (String × PropData)) : List String :=
  match ps.2 with
  | [] => []
  | _ :: _ => ("Property Set: " ++ ps.1) :: ps.2.filterMap (fun p => propLine p.1 p.2)

/-- The `text_parts` list built for one element (lines 222-250): the
`Element Type:` segment (defaulting to `Unknown` for a missing key), the
`Name:` and `Description:` segments when truthy, then the property-set lines. -/
def textParts (e : Element) : List String :=
  ["Element Type: " ++ e.type.getD "Unknown"]
    ++ (if strTruthy e.name then ["Name: " ++ e.name.getD ""] else [])
    ++ (if strTruthy e.description then ["Description: " ++ e.description.getD ""] else [])
    ++ List.flatten (e.properties.map psLines)

/-- `" | ".join(text_parts)` (line 253). -/
def elementText (e : Element) : String :=
  String.intercalate " | " (textParts e)

/-- `IFCProcessor.convert_to_text_chunks` restricted to its element traversal
(lines 213-254): the batch loop visits `elements[0:b], elements[b:2b], ...`,
i.e. every element once in order, so the produced chunk list is the in-order
image of `elementText`.  The cache (keyed on file name and size) only replays
a previously produced list and is omitted. -/
def convert_to_text_chunks (elements : List Element) : List String :=
  elements.map elementText

/-- Whether `pat` occurs at the very start of `s` (character list version). -/
def startsWithSeq : List Char → List Char → Bool
  | [], _ => true
  | _ :: _, [] => false
  | p :: ps, c :: cs => p == c && startsWithSeq ps cs

/-- Whether `pat` occurs contiguously anywhere in `s` (character list
version): the Python `pat in s` substring test. -/
def containsSeq (pat : List Char) : List Char → Bool
  | [] => startsWithSeq pat []
  | c :: rest => startsWithSeq pat (c :: rest) || containsSeq pat rest

/-- The Python substring test `pat in s`. -/
def strContains (pat s : String) : Bool :=
  containsSeq pat.data s.data

/-- Decidable equality of `Except` values, used to evaluate the store
operations on concrete inputs. -/
instance {ε α : Type} [DecidableEq ε] [DecidableEq α] : DecidableEq (Except ε α)
  | .error a, .error b =>
    if h : a = b then .isTrue (by rw [h]) else .isFalse (by intro hc; cases hc; exact h rfl)
  | .error _, .ok _ => .isFalse (by intro hc; cases hc)
  | .ok _, .error _ => .isFalse (by intro hc; cases hc)
  | .ok a, .ok b =>
    if h : a = b then .isTrue (by rw [h]) else .isFalse (by intro hc; cases hc; exact h rfl)

/-- Error classification for the embedding core.  Every failure in the Python
source is raised as (or wrapped into) a `ValueError`; the constructors record
which guard produced it, following the spec's taxonomy. -/
inductive EmbedError where
  | credentialMissing
  | providerError
  | emptyStore
  | dimensionMismatch
  | indexError
  | corruptState
deriving DecidableEq, Repr

/-- The mutable state of an `EmbeddingProcessor` (embedding.py lines 20-24):
`api_key`, `model`, `embeddings`, `texts`.  The scalar type of the vectors is
a parameter so that the store operations, which never compute on the numbers,
stay decidable. -/
structure PState (α : Type) where
  api_key : Option String
  model : String
  embeddings : List (List α)
  texts : List String
deriving DecidableEq, Repr

/-- `EmbeddingProcessor.__init__`: no key, default model, empty collections. -/
def initPState (α : Type) : PState α :=
  ⟨none, "text-embedding-3-small", [], []⟩

/-- Python truthiness of `not self.api_key`: `None` and `""` are falsy. -/
def apiKeyFalsy : Option String → Bool
  | none => true
  | some k => k == ""

/-- The embedding loop of `generate_embeddings` (lines 43-52): one adapter
call per text in input order, appending to the local `embeddings` list; the
first adapter exception aborts the loop and propagates.  The loop body never
assigns to `self`, so no state is threaded through it. -/
def genLoop {α : Type} (adapter : String → Except EmbedError (List α)) :
    List String → List (List α) → Except EmbedError (List (List α))
  | [], acc => .ok acc
  | t :: rest, acc =>
    match adapter t with
    | .error e => .error e
    | .ok v => genLoop adapter rest (acc ++ [v])

/-- `EmbeddingProcessor.generate_embeddings` (lines 38-56): raise if the API
key is falsy; run the embedding loop; only after the whole loop succeeds
assign `self.embeddings` and `self.texts`, and return the embeddings.  The
second component is the processor state as the caller observes it after the
call, exception or not.  The progress callback is a pure observer and is
omitted. -/
def generate_embeddings {α : Type} (s : PState α) (texts : List String)
    (adapter : String → Except EmbedError (List α)) :
    Except EmbedError (List (List α)) × PState α :=
  if apiKeyFalsy s.api_key then (.error .credentialMissing, s)
  else
    match genLoop adapter texts [] with
    | .error e => (.error e, s)
    | .ok embs => (.ok embs, { s with embeddings := embs, texts := texts })

/-- The two persistence formats accepted by `save_embeddings` and
`load_embeddings` (any other format string raises before touching state). -/
inductive Format where
  | pickle
  | json
deriving DecidableEq, Repr

/-- A deserialized persisted payload: the dict with keys `embeddings`,
`texts`, `model`, any of which may be absent (`none`). -/
structure Payload (α : Type) where
  embeddings : Option (List (List α))
  texts : Option (List String)
  model : Option String
deriving DecidableEq, Repr

/-- A persisted embeddings file: the byte-level pickle/json serialization is
abstracted to the format it was written in plus the payload it decodes to. -/
structure SavedFile (α : Type) where
  format : Format
  payload : Payload α
deriving DecidableEq, Repr

/-- `EmbeddingProcessor.save_embeddings` (lines 87-110): serialize the dict
`{'embeddings': ..., 'texts': ..., 'model': ...}` in the requested format. -/
def save_embeddings {α : Type} (s : PState α) (fmt : Format) : SavedFile α :=
  ⟨fmt, ⟨some s.embeddings, some s.texts, some s.model⟩⟩

/-- `EmbeddingProcessor.load_embeddings` (lines 112-133): deserialize with
the requested format's decoder (decoding a file of the other format fails and
is wrapped into a `ValueError`), then assign `self.embeddings`,
`self.texts`, `self.model` in that order; a missing dict key raises at the
corresponding assignment, so the fields already assigned keep their new
values.  No alignment check between `embeddings` and `texts` is performed. -/
def load_embeddings {α : Type} (s : PState α) (f : SavedFile α) (fmt : Format) :
    Except EmbedError Unit × PState α :=
  if f.format = fmt then
    match f.payload.embeddings with
    | none => (.error .corruptState, s)
    | some embs =>
      match f.payload.texts with
      | none => (.error .corruptState, { s with embeddings := embs })
      | some ts =>
        match f.payload.model with
        | none => (.error .corruptState, { s with embeddings := embs, texts := ts })
        | some m => (.ok (), { s with embeddings := embs, texts := ts, model := m })
  else (.error .corruptState, s)

/-- The spec accessor `size()`: number of stored texts. -/
def PState.size {α : Type} (s : PState α) : Nat :=
  s.texts.length

/-- The spec accessor `dimension()`: length of the first stored vector, `0`
for an empty store. -/
def PState.dimension {α : Type} (s : PState α) : Nat :=
  (s.embeddings.headD []).length

/-- `np.dot` of two one-dimensional arrays. -/
noncomputable def dotL (v w : List ℝ) : ℝ :=
  (List.zipWith (fun a b => a * b) v w).sum

/-- `np.linalg.norm` of a one-dimensional array: the Euclidean norm. -/
noncomputable def normL (v : List ℝ) : ℝ :=
  Real.sqrt (dotL v v)

/-- The stability constant `1e-8` added to the denominator (line 72). -/
noncomputable def eps : ℝ :=
  1 / 100000000

/-- Whether `np.array(self.embeddings)` yields a two-dimensional array: all
rows share the first row's length (a ragged list of rows raises). -/
def uniformRows {α : Type} (l : List (List α)) : Bool :=
  l.all (fun r => r.length == (l.headD []).length)

/-- The scan of `np.argmax`: carry the best index and best value, replacing
them only on a strictly greater element, so the first maximum wins. -/
noncomputable def argmaxAux : List ℝ → Nat → ℝ → Nat → Nat × ℝ
  | [], bi, bv, _ => (bi, bv)
  | x :: rest, bi, bv, i =>
    if bv < x then argmaxAux rest i x (i + 1) else argmaxAux rest bi bv (i + 1)

/-- `np.argmax`: index of the first occurrence of the maximum (numpy returns
`0` on what would be an empty reduction only after raising; the empty case is
unreachable below and set to `0`). -/
noncomputable def argmax : List ℝ → Nat
  | [] => 0
  | x :: rest => (argmaxAux rest 0 x 1).1

/-- The result dict of `find_most_similar` (lines 76-80). -/
structure SearchResult where
  text : String
  similarity_score : ℝ
  index : Nat

/-- `EmbeddingProcessor.find_most_similar` (lines 58-80) with the remote
embedding of the query string replaced by the vector it returns.  In source
order: raise if `self.embeddings` or `self.texts` is empty; build the
document matrix (`np.array` raises on ragged rows) and take the dot product
with the query (`np.dot` raises when the query length differs from the row
length); divide by the norm product plus `1e-8`; `np.argmax`; index
`self.texts` (an out-of-range index raises `IndexError`). -/
noncomputable def find_most_similar (s : PState ℝ) (query_embedding : List ℝ) :
    Except EmbedError SearchResult :=
  match s.embeddings, s.texts with
  | [], _ => .error .emptyStore
  | _ :: _, [] => .error .emptyStore
  | v :: vs, t :: ts =>
    if uniformRows (v :: vs) then
      if query_embedding.length = v.length then
        let sims := (v :: vs).map
          (fun w => dotL w query_embedding / (normL w * normL query_embedding + eps))
        match (t :: ts).get? (argmax sims) with
        | some tt => .ok ⟨tt, sims.getD (argmax sims) 0, argmax sims⟩
        | none => .error .indexError
      else .error .dimensionMismatch
    else .error .dimensionMismatch

/-! ## Helper lemmas -/

theorem getD_of_get? {β : Type} {l : List β} {n : Nat} {d a : β}
    (h : l.get? n = some a) : l.getD n d = a := by
  rw [List.getD_eq_getD_get?, h]
  rfl

theorem getD_map_of_lt {α β : Type} (f : α → β) (l : List α) (j : Nat) (dA : α) (dB : β)
    (h : j < l.length) : (l.map f).getD j dB = f (l.getD j dA) := by
  induction l generalizing j with
  | nil => simp at h
  | cons a l ih =>
    cases j with
    | zero => simp
    | succ j => simpa using ih j (by simpa using h)

theorem dotL_comm (v w : List ℝ) : dotL v w = dotL w v := by
  unfold dotL
  rw [List.zipWith_comm_of_comm (fun a b => a * b) (fun a b => mul_comm a b)]

theorem argmaxAux_le (xs : List ℝ) : ∀ (bi i : Nat) (bv : ℝ),
    bv ≤ (argmaxAux xs bi bv i).2 ∧
      ∀ k, k < xs.length → xs.getD k 0 ≤ (argmaxAux xs bi bv i).2 := by
  induction xs with
  | nil =>
    intro bi i bv
    exact ⟨le_refl _, fun k hk => by simp at hk⟩
  | cons x rest ih =>
    intro bi i bv
    by_cases hx : bv < x
    · have h := ih i (i + 1) x
      simp only [argmaxAux, if_pos hx]
      refine ⟨le_trans hx.le h.1, ?_⟩
      intro k hk
      cases k with
      | zero => simpa using h.1
      | succ k => simpa using h.2 k (by simpa using hk)
    · have h := ih bi (i + 1) bv
      simp only [argmaxAux, if_neg hx]
      refine ⟨h.1, ?_⟩
      intro k hk
      cases k with
      | zero => simpa using le_trans (not_lt.mp hx) h.1
      | succ k => simpa using h.2 k (by simpa using hk)

theorem argmaxAux_cases (xs : List ℝ) : ∀ (bi i : Nat) (bv : ℝ),
    argmaxAux xs bi bv i = (bi, bv) ∨
      ∃ j, j < xs.length ∧ (argmaxAux xs bi bv i).1 = i + j ∧
        (argmaxAux xs bi bv i).2 = xs.getD j 0 ∧ bv < xs.getD j 0 ∧
        ∀ k, k < j → xs.getD k 0 < xs.getD j 0 := by
  induction xs with
  | nil =>
    intro bi i bv
    exact Or.inl rfl
  | cons x rest ih =>
    intro bi i bv
    by_cases hx : bv < x
    · simp only [argmaxAux, if_pos hx]
      rcases ih i (i + 1) x with h | ⟨j, hj, h1, h2, h3, h4⟩
      · right
        refine ⟨0, by simp, ?_, ?_, by simpa using hx, ?_⟩
        · rw [h]
          simp
        · rw [h]
          simp
        · intro k hk
          exact absurd hk (Nat.not_lt_zero k)
      · right
        refine ⟨j + 1, by simpa using hj, ?_, ?_, ?_, ?_⟩
        · rw [h1]
          omega
        · simpa using h2
        · have hxj : x < rest.getD j 0 := h3
          simpa using lt_trans hx hxj
        · intro k hk
          cases k with
          | zero =>
            have hxj : x < rest.getD j 0 := h3
            simpa using hxj
          | succ k => simpa using h4 k (by omega)
    · simp only [argmaxAux, if_neg hx]
      rcases ih bi (i + 1) bv with h | ⟨j, hj, h1, h2, h3, h4⟩
      · exact Or.inl h
      · right
        refine ⟨j + 1, by simpa using hj, ?_, ?_, ?_, ?_⟩
        · rw [h1]
          omega
        · simpa using h2
        · simpa using h3
        · intro k hk
          cases k with
          | zero =>
            have hxj : bv < rest.getD j 0 := h3
            simpa using lt_of_le_of_lt (not_lt.mp hx) hxj
          | succ k => simpa using h4 k (by omega)

theorem argmax_spec (x : ℝ) (rest : List ℝ) :
    argmax (x :: rest) < (x :: rest).length ∧
      (∀ k, k < (x :: rest).length →
        (x :: rest).getD k 0 ≤ (x :: rest).getD (argmax (x :: rest)) 0) ∧
      ∀ k, k < argmax (x :: rest) →
        (x :: rest).getD k 0 < (x :: rest).getD (argmax (x :: rest)) 0 := by
  have hle := argmaxAux_le rest 0 1 x
  rcases argmaxAux_cases rest 0 1 x with h | ⟨j, hj, h1, h2, h3, h4⟩
  · have hidx : argmax (x :: rest) = 0 := by simp [argmax, h]
    have hval : (argmaxAux rest 0 x 1).2 = x := by rw [h]
    refine ⟨by simp [hidx], ?_, ?_⟩
    · intro k hk
      cases k with
      | zero => simp [hidx]
      | succ k =>
        rw [hidx]
        rw [hval] at hle
        simpa using hle.2 k (by simpa using hk)
    · intro k hk
      rw [hidx] at hk
      exact absurd hk (Nat.not_lt_zero k)
  · have hidx : argmax (x :: rest) = 1 + j := by simp [argmax, h1]
    have hgd : (x :: rest).getD (1 + j) 0 = rest.getD j 0 := by
      rw [Nat.add_comm]
      simp
    refine ⟨by simp [hidx]; omega, ?_, ?_⟩
    · intro k hk
      rw [hidx, hgd, ← h2]
      cases k with
      | zero => simpa using hle.1
      | succ k => simpa using hle.2 k (by simpa using hk)
    · intro k hk
      rw [hidx, hgd]
      rw [hidx] at hk
      cases k with
      | zero => simpa using h3
      | succ k => simpa using h4 k (by omega)

theorem genLoop_ok {α : Type} (adapter : String → Except EmbedError (List α)) :
    ∀ (ts : List String) (acc out : List (List α)),
      genLoop adapter ts acc = .ok out →
      out.length = acc.length + ts.length ∧
        (∀ i, i < acc.length → out.get? i = acc.get? i) ∧
        ∀ i, i < ts.length → adapter (ts.getD i "") = .ok (out.getD (acc.length + i) []) := by
  intro ts
  induction ts with
  | nil =>
    intro acc out h
    simp only [genLoop, Except.ok.injEq] at h
    subst h
    exact ⟨by simp, fun i _ => rfl, fun i hi => by simp at hi⟩
  | cons t rest ih =>
    intro acc out h
    simp only [genLoop] at h
    rcases hv : adapter t with e | v
    · rw [hv] at h
      simp at h
    · rw [hv] at h
      obtain ⟨h1, h2, h3⟩ := ih (acc ++ [v]) out h
      refine ⟨by simp at h1; simpa using by omega, ?_, ?_⟩
      · intro i hi
        rw [h2 i (by simp; omega)]
        exact List.get?_append hi
      · intro i hi
        cases i with
        | zero =>
          have hg := h2 acc.length (by simp)
          rw [List.get?_concat_length] at hg
          rw [Nat.add_zero]
          simpa [hv] using (getD_of_get? hg).symm
        | succ i =>
          have h := h3 i (by simpa using hi)
          have hidx : (acc ++ [v]).length + i = acc.length + (i + 1) := by
            simp
            omega
          rw [hidx] at h
          simpa using h

theorem genLoop_err {α : Type} (adapter : String → Except EmbedError (List α)) :
    ∀ (ts : List String) (acc : List (List α)) (k : Nat) (e : EmbedError),
      k < ts.length →
      (∀ j, j < k → ∃ v, adapter (ts.getD j "") = .ok v) →
      adapter (ts.getD k "") = .error e →
      genLoop adapter ts acc = .error e := by
  intro ts
  induction ts with
  | nil =>
    intro acc k e hk
    simp at hk
  | cons t rest ih =>
    intro acc k e hk hok hfail
    cases k with
    | zero =>
      simp only [List.getD_cons_zero] at hfail
      simp only [genLoop, hfail]
    | succ k =>
      obtain ⟨v, hv⟩ := hok 0 (Nat.succ_pos k)
      simp only [List.getD_cons_zero] at hv
      simp only [genLoop, hv]
      exact ih (acc ++ [v]) k e (by simpa using hk)
        (fun j hj => by simpa using hok (j + 1) (by omega))
        (by simpa using hfail)

theorem sims_getD (q : List ℝ) (l : List (List ℝ)) (j : Nat) (h : j < l.length) :
    (l.map (fun w => dotL w q / (normL w * normL q + eps))).getD j 0 =
      dotL q (l.getD j []) / (normL q * normL (l.getD j []) + eps) := by
  rw [getD_map_of_lt (fun w => dotL w q / (normL w * normL q + eps)) l j [] 0 h]
  rw [dotL_comm, mul_comm (normL (l.getD j [])) (normL q)]

/-! ## Claim theorems -/

/-- C1, counterexample: the record with a single property
`Thickness: {value: 0, unit: "mm"}` materializes to a chunk that does not
contain `"Thickness: 0 mm"` — the truthiness check `if value:` drops the
zero-valued property, so the claim that only `None` values are omitted is
false on the code. -/
theorem c1_counterexample :
    convert_to_text_chunks
        [{ type := some "IfcWall",
           properties := [("Pset_Wall", [("Thickness", ⟨some (.int 0), some "mm"⟩)])] }] =
      ["Element Type: IfcWall | Property Set: Pset_Wall"] ∧
    strContains "Thickness: 0 mm" "Element Type: IfcWall | Property Set: Pset_Wall" = false := by
  exact ⟨by decide, by decide⟩

/-- C1 (amended): the materializer emits a property line exactly for truthy
values: for a record with a single integer-valued property with a non-empty
unit, the chunk is the type segment, the property-set header, and — only when
the value is nonzero — the `name: value unit` line; a zero value is omitted
(only the claim's zero-inclusion is amended; `None` values are omitted too,
as `propLine` shows). -/
theorem c1_truthy_value_filtering (ty psn pn : String) (n : Int) (u : String)
    (hu : u ≠ "") :
    convert_to_text_chunks
        [{ type := some ty, properties := [(psn, [(pn, ⟨some (.int n), some u⟩)])] }] =
      [String.intercalate " | "
        (["Element Type: " ++ ty, "Property Set: " ++ psn] ++
          (if n = 0 then [] else [pn ++ ": " ++ toString n ++ " " ++ u]))] := by
  by_cases hn : n = 0
  · subst hn
    simp [convert_to_text_chunks, elementText, textParts, psLines, propLine,
      PValue.truthy, strTruthy]
  · simp [convert_to_text_chunks, elementText, textParts, psLines, propLine,
      PValue.truthy, PValue.render, strTruthy, hn, hu, String.append_assoc]

/-- C1, witness for the amended theorem at a concrete nonzero value. -/
theorem c1_truthy_value_filtering_witness :
    convert_to_text_chunks
        [{ type := some "IfcWall",
           properties := [("Pset_Wall", [("Thickness", ⟨some (.int 5), some "mm"⟩)])] }] =
      [String.intercalate " | "
        (["Element Type: " ++ "IfcWall", "Property Set: " ++ "Pset_Wall"] ++
          (if (5 : Int) = 0 then [] else ["Thickness" ++ ": " ++ toString (5 : Int) ++ " " ++ "mm"]))] :=
  c1_truthy_value_filtering "IfcWall" "Pset_Wall" "Thickness" 5 "mm" (by decide)

/-- C8: the three records of the end-to-end scenario materialize to exactly
the three expected strings, in order. -/
theorem c8_end_to_end_materialize :
    convert_to_text_chunks
        [{ type := some "IfcWall", name := some "Wall-01" },
         { type := some "IfcDoor", name := some "Door-01",
           properties := [("Pset_Door", [("Width", ⟨some (.int 900), some "mm"⟩)])] },
         { type := some "IfcWindow", name := some "" }] =
      ["Element Type: IfcWall | Name: Wall-01",
       "Element Type: IfcDoor | Name: Door-01 | Property Set: Pset_Door | Width: 900 mm",
       "Element Type: IfcWindow"] := by
  decide

/-- C2, counterexample: a payload whose `embeddings` and `texts` have
different lengths loads successfully and leaves the store with misaligned
collections — `load_embeddings` performs no alignment check. -/
theorem c2_counterexample :
    (load_embeddings (initPState ℚ)
        ⟨Format.json, ⟨some [[1]], some ["a", "b"], some "m"⟩⟩ Format.json).1 = .ok () ∧
    ((load_embeddings (initPState ℚ)
        ⟨Format.json, ⟨some [[1]], some ["a", "b"], some "m"⟩⟩ Format.json).2).embeddings.length ≠
      ((load_embeddings (initPState ℚ)
        ⟨Format.json, ⟨some [[1]], some ["a", "b"], some "m"⟩⟩ Format.json).2).texts.length := by
  exact ⟨by decide, by decide⟩

/-- C2 (amended): a successful `generate_embeddings` leaves
`len(embeddings) = len(texts)`, and `load_embeddings` fails when the payload
is missing any of `embeddings`, `texts`, `model`; but load does not validate
`len(embeddings) = len(texts)`, so a mismatched payload loads successfully
(see the counterexample). -/
theorem c2_alignment_and_missing_fields {α : Type} :
    (∀ (s : PState α) (texts : List String)
        (adapter : String → Except EmbedError (List α))
        (r : List (List α)) (s' : PState α),
        generate_embeddings s texts adapter = (.ok r, s') →
        s'.embeddings.length = s'.texts.length) ∧
    ∀ (s : PState α) (f : SavedFile α) (fmt : Format),
      f.payload.embeddings = none ∨ f.payload.texts = none ∨ f.payload.model = none →
      (load_embeddings s f fmt).1 = .error .corruptState := by
  constructor
  · intro s texts adapter r s' h
    unfold generate_embeddings at h
    by_cases hk : apiKeyFalsy s.api_key
    · rw [if_pos hk] at h
      simp at h
    · rw [if_neg hk] at h
      rcases hl : genLoop adapter texts [] with e | embs
      · rw [hl] at h
        simp at h
      · rw [hl] at h
        simp only [Prod.mk.injEq, Except.ok.injEq] at h
        obtain ⟨h1, h2⟩ := h
        subst h2
        have hlen := (genLoop_ok adapter texts [] embs hl).1
        simpa using hlen
  · intro s f fmt hmiss
    by_cases hf : f.format = fmt
    · rcases he : f.payload.embeddings with _ | embs
      · simp [load_embeddings, hf, he]
      · rcases ht : f.payload.texts with _ | ts
        · simp [load_embeddings, hf, he, ht]
        · rcases hm : f.payload.model with _ | m
          · simp [load_embeddings, hf, he, ht, hm]
          · rcases hmiss with h | h | h
            · rw [he] at h
              exact Option.noConfusion h
            · rw [ht] at h
              exact Option.noConfusion h
            · rw [hm] at h
              exact Option.noConfusion h
    · simp [load_embeddings, hf]

/-- C2, witness: the generate half at a one-text run, the load half at a
payload missing `embeddings`. -/
theorem c2_alignment_and_missing_fields_witness :
    ((⟨some "sk", "m", [[1]], ["a"]⟩ : PState ℚ).embeddings.length =
      (⟨some "sk", "m", [[1]], ["a"]⟩ : PState ℚ).texts.length) ∧
    (load_embeddings (initPState ℚ)
        ⟨Format.json, ⟨none, some ["a"], some "m"⟩⟩ Format.json).1 = .error .corruptState := by
  constructor
  · exact (c2_alignment_and_missing_fields (α := ℚ)).1 ⟨some "sk", "m", [], []⟩ ["a"]
      (fun _ => .ok [1]) [[1]] ⟨some "sk", "m", [[1]], ["a"]⟩ (by decide)
  · exact (c2_alignment_and_missing_fields (α := ℚ)).2 (initPState ℚ)
      ⟨Format.json, ⟨none, some ["a"], some "m"⟩⟩ Format.json (Or.inl rfl)

/-- C4: for every store state and both formats, loading the file produced by
save reproduces the state exactly — same size, same dimension, same model,
and every text/vector pair equal to the original. -/
theorem c4_roundtrip {α : Type} (s scur : PState α) (fmt : Format) :
    (load_embeddings scur (save_embeddings s fmt) fmt).1 = .ok () ∧
    (load_embeddings scur (save_embeddings s fmt) fmt).2.size = s.size ∧
    (load_embeddings scur (save_embeddings s fmt) fmt).2.dimension = s.dimension ∧
    (load_embeddings scur (save_embeddings s fmt) fmt).2.model = s.model ∧
    (∀ i, (load_embeddings scur (save_embeddings s fmt) fmt).2.texts.get? i = s.texts.get? i) ∧
    ∀ i, (load_embeddings scur (save_embeddings s fmt) fmt).2.embeddings.get? i =
      s.embeddings.get? i := by
  simp [load_embeddings, save_embeddings, PState.size, PState.dimension]

/-- C5: when the adapter succeeds on every text before position `k` and
raises at position `k`, `generate_embeddings` propagates that error and the
caller-observed state is exactly the pre-call state — no partial overwrite. -/
theorem c5_failure_preserves_state {α : Type} (s : PState α) (texts : List String)
    (adapter : String → Except EmbedError (List α)) (k : Nat) (e : EmbedError)
    (hkey : apiKeyFalsy s.api_key = false)
    (hk : k < texts.length)
    (hok : ∀ j, j < k → ∃ v, adapter (texts.getD j "") = .ok v)
    (hfail : adapter (texts.getD k "") = .error e) :
    generate_embeddings s texts adapter = (.error e, s) := by
  unfold generate_embeddings
  rw [genLoop_err adapter texts [] k e hk hok hfail]
  simp [hkey]

/-- C5, witness: a two-text run whose adapter fails on the second text leaves
the non-empty pre-call store untouched and propagates the provider error. -/
theorem c5_failure_preserves_state_witness :
    generate_embeddings (⟨some "sk", "m", [[3]], ["old"]⟩ : PState ℚ) ["a", "b"]
        (fun t => if t = "a" then .ok [1] else .error .providerError) =
      (.error .providerError, ⟨some "sk", "m", [[3]], ["old"]⟩) :=
  c5_failure_preserves_state _ _ _ 1 _ (by decide) (by decide)
    (fun j hj => by
      interval_cases j
      exact ⟨[1], by decide⟩)
    (by decide)

/-- C9: on a successful `generate_embeddings`, the stored texts are the input
texts in order, and the vector at each position is the adapter's embedding of
the text at that position. -/
theorem c9_order_preservation {α : Type} (s : PState α) (texts : List String)
    (adapter : String → Except EmbedError (List α)) (r : List (List α)) (s' : PState α)
    (h : generate_embeddings s texts adapter = (.ok r, s')) :
    s'.texts = texts ∧ s'.embeddings.length = texts.length ∧
      ∀ i, i < texts.length →
        adapter (texts.getD i "") = .ok (s'.embeddings.getD i []) := by
  unfold generate_embeddings at h
  by_cases hk : apiKeyFalsy s.api_key
  · rw [if_pos hk] at h
    simp at h
  · rw [if_neg hk] at h
    rcases hl : genLoop adapter texts [] with e | embs
    · rw [hl] at h
      simp at h
    · rw [hl] at h
      simp only [Prod.mk.injEq, Except.ok.injEq] at h
      obtain ⟨h1, h2⟩ := h
      subst h2
      obtain ⟨hlen, _, hpt⟩ := genLoop_ok adapter texts [] embs hl
      refine ⟨rfl, by simpa using hlen, ?_⟩
      intro i hi
      simpa using hpt i hi

/-- C9, witness: a concrete two-text success run. -/
theorem c9_order_preservation_witness :
    ((⟨some "sk", "m", [[1], [2]], ["a", "b"]⟩ : PState ℚ).texts = ["a", "b"]) ∧
    (⟨some "sk", "m", [[1], [2]], ["a", "b"]⟩ : PState ℚ).embeddings.length = (["a", "b"] : List String).length ∧
    ∀ i, i < (["a", "b"] : List String).length →
      (fun t => if t = "a" then (.ok [1] : Except EmbedError (List ℚ)) else .ok [2]) ((["a", "b"] : List String).getD i "") =
        .ok ((⟨some "sk", "m", [[1], [2]], ["a", "b"]⟩ : PState ℚ).embeddings.getD i []) :=
  c9_order_preservation ⟨some "sk", "m", [], []⟩ ["a", "b"]
    (fun t => if t = "a" then .ok [1] else .ok [2]) [[1], [2]]
    ⟨some "sk", "m", [[1], [2]], ["a", "b"]⟩ (by decide)

/-- C7: `find_most_similar` on a store with zero entries fails with the
empty-store error, for every query vector. -/
theorem c7_empty_store_guard (s : PState ℝ) (q : List ℝ)
    (he : s.embeddings = []) (ht : s.texts = []) :
    find_most_similar s q = .error .emptyStore := by
  obtain ⟨key, m, embs, txts⟩ := s
  simp only at he ht
  subst he
  rfl

/-- C7, witness: the freshly initialized store rejects a concrete query. -/
theorem c7_empty_store_guard_witness :
    find_most_similar (initPState ℝ) [1, 2] = .error .emptyStore :=
  c7_empty_store_guard (initPState ℝ) [1, 2] rfl rfl

/-- C6, counterexample: on the empty store the query length `1` differs from
the store dimension `0`, yet `find_most_similar` fails with the empty-store
error, not a dimension-mismatch error — the emptiness guard runs first, so
the claim quantified over every store is false. -/
theorem c6_counterexample :
    ([(1 : ℝ)]).length ≠ (initPState ℝ).dimension ∧
    find_most_similar (initPState ℝ) [1] = .error .emptyStore ∧
    find_most_similar (initPState ℝ) [1] ≠ .error .dimensionMismatch := by
  refine ⟨by simp [initPState, PState.dimension], rfl, ?_⟩
  intro hc
  rw [show find_most_similar (initPState ℝ) [1] = .error .emptyStore from rfl] at hc
  injection hc with h
  exact absurd h (by decide)

/-- C6 (amended): for every store holding at least one vector and one text, a
query whose length differs from the store dimension fails with the
dimension-mismatch error and never returns a result; the empty store instead
fails with the empty-store error (see the counterexample). -/
theorem c6_dimension_guard (s : PState ℝ) (q : List ℝ)
    (hne : s.embeddings ≠ []) (hnt : s.texts ≠ [])
    (hdim : q.length ≠ s.dimension) :
    find_most_similar s q = .error .dimensionMismatch := by
  obtain ⟨key, m, embs, txts⟩ := s
  cases embs with
  | nil => simp at hne
  | cons v vs =>
    cases txts with
    | nil => simp at hnt
    | cons t ts =>
      have hd : q.length ≠ v.length := by simpa [PState.dimension] using hdim
      by_cases hu : uniformRows (v :: vs)
      · simp only [find_most_similar, if_pos hu, if_neg hd]
      · simp only [find_most_similar, if_neg hu]

/-- C6, witness for the amended theorem: a one-entry two-dimensional store
rejects a one-dimensional query with the dimension-mismatch error. -/
theorem c6_dimension_guard_witness :
    find_most_similar (⟨none, "m", [[1, 2]], ["a"]⟩ : PState ℝ) [1] =
      .error .dimensionMismatch :=
  c6_dimension_guard _ _ (by simp) (by simp) (by simp [PState.dimension])

/-- C10: whenever `find_most_similar` returns a result on an aligned store of
size `n`, the returned index is in range, the returned text is the stored
text at that index, and the returned score is the similarity computed for the
stored vector at that index. -/
theorem c10_result_consistency (s : PState ℝ) (q : List ℝ) (n : Nat) (r : SearchResult)
    (hn : s.texts.length = n) (hm : s.embeddings.length = n)
    (hr : find_most_similar s q = .ok r) :
    r.index < n ∧ s.texts.getD r.index "" = r.text ∧
      r.similarity_score =
        (s.embeddings.map (fun w => dotL w q / (normL w * normL q + eps))).getD r.index 0 := by
  obtain ⟨key, m, embs, txts⟩ := s
  cases embs with
  | nil => simp [find_most_similar] at hr
  | cons v vs =>
    cases txts with
    | nil => simp [find_most_similar] at hr
    | cons t ts =>
      simp only [find_most_similar] at hr
      by_cases hu : uniformRows (v :: vs)
      · rw [if_pos hu] at hr
        by_cases hq : q.length = v.length
        · rw [if_pos hq] at hr
          rcases hg : ((t :: ts).get?
              (argmax ((v :: vs).map (fun w => dotL w q / (normL w * normL q + eps))))) with _ | tt
          · rw [hg] at hr
            simp at hr
          · rw [hg] at hr
            simp only [Except.ok.injEq] at hr
            subst hr
            simp only [List.map_cons] at hg ⊢
            have hspec := argmax_spec (dotL v q / (normL v * normL q + eps))
              (vs.map (fun w => dotL w q / (normL w * normL q + eps)))
            have hmn : (v :: vs).length = n := by simpa using hm
            refine ⟨?_, ?_, ?_⟩
            · have h1 := hspec.1
              simp only [List.length_cons, List.length_map] at h1
              simp only [List.length_cons] at hmn
              omega
            · simpa using getD_of_get? hg
            · trivial
        · rw [if_neg hq] at hr
          simp at hr
      · rw [if_neg hu] at hr
        simp at hr

/-- C10, witness: a concrete one-entry store and query on which
`find_most_similar` returns a result. -/
theorem c10_result_consistency_witness :
    (⟨"a", ((([[2]] : List (List ℝ)).map
        (fun w => dotL w [1] / (normL w * normL [1] + eps))).getD 0 0), 0⟩ : SearchResult).index < 1 ∧
    (["a"] : List String).getD
      (⟨"a", ((([[2]] : List (List ℝ)).map
        (fun w => dotL w [1] / (normL w * normL [1] + eps))).getD 0 0), 0⟩ : SearchResult).index "" =
      (⟨"a", ((([[2]] : List (List ℝ)).map
        (fun w => dotL w [1] / (normL w * normL [1] + eps))).getD 0 0), 0⟩ : SearchResult).text ∧
    (⟨"a", ((([[2]] : List (List ℝ)).map
        (fun w => dotL w [1] / (normL w * normL [1] + eps))).getD 0 0), 0⟩ : SearchResult).similarity_score =
      (([[2]] : List (List ℝ)).map
        (fun w => dotL w [1] / (normL w * normL [1] + eps))).getD
        (⟨"a", ((([[2]] : List (List ℝ)).map
          (fun w => dotL w [1] / (normL w * normL [1] + eps))).getD 0 0), 0⟩ : SearchResult).index 0 :=
  c10_result_consistency (⟨none, "m", [[2]], ["a"]⟩ : PState ℝ) [1] 1 _ rfl rfl
    (by simp [find_most_similar, uniformRows, argmax, argmaxAux])

/-- C3: on a non-empty aligned store of uniform row length and a query of
matching dimension, `find_most_similar` scores every stored vector `v_i` as
`dot(q, v_i) / (norm(q) * norm(v_i) + 1e-8)` and returns the entry with the
maximal score; when two stored vectors tie, the lower original index is
returned. -/
theorem c3_similarity_argmax (s : PState ℝ) (q : List ℝ)
    (hne : s.embeddings ≠ [])
    (hal : s.texts.length = s.embeddings.length)
    (hu : uniformRows s.embeddings = true)
    (hq : q.length = s.dimension) :
    ∃ r, find_most_similar s q = .ok r ∧
      r.index < s.embeddings.length ∧
      r.similarity_score =
        dotL q (s.embeddings.getD r.index []) /
          (normL q * normL (s.embeddings.getD r.index []) + eps) ∧
      (∀ j, j < s.embeddings.length →
        dotL q (s.embeddings.getD j []) / (normL q * normL (s.embeddings.getD j []) + eps) ≤
          r.similarity_score) ∧
      ∀ j, j < r.index →
        dotL q (s.embeddings.getD j []) / (normL q * normL (s.embeddings.getD j []) + eps) <
          r.similarity_score := by
  obtain ⟨key, m, embs, txts⟩ := s
  cases embs with
  | nil => simp at hne
  | cons v vs =>
    cases txts with
    | nil => simp at hal
    | cons t ts =>
      have hu' : uniformRows (v :: vs) = true := hu
      have hal' : (t :: ts).length = (v :: vs).length := hal
      have hq' : q.length = v.length := hq
      have hspec := argmax_spec (dotL v q / (normL v * normL q + eps))
        (vs.map (fun w => dotL w q / (normL w * normL q + eps)))
      have hlen : (dotL v q / (normL v * normL q + eps) ::
          vs.map (fun w => dotL w q / (normL w * normL q + eps))).length = (v :: vs).length := by
        simp
      have htop : argmax (dotL v q / (normL v * normL q + eps) ::
          vs.map (fun w => dotL w q / (normL w * normL q + eps))) < (t :: ts).length := by
        rw [hal', ← hlen]
        exact hspec.1
      simp only [find_most_similar, hu', hq', if_true, List.map_cons, eq_self_iff_true]
      rw [List.get?_eq_get htop]
      refine ⟨_, rfl, ?_, ?_, ?_, ?_⟩
      · simpa using lt_of_lt_of_le hspec.1 (le_of_eq hlen)
      · have hb : argmax (dotL v q / (normL v * normL q + eps) ::
            vs.map (fun w => dotL w q / (normL w * normL q + eps))) < (v :: vs).length := by
          rw [← hlen]
          exact hspec.1
        have := sims_getD q (v :: vs)
          (argmax (dotL v q / (normL v * normL q + eps) ::
            vs.map (fun w => dotL w q / (normL w * normL q + eps)))) hb
        simpa [List.map_cons] using this
      · intro j hj
        have hjlt : j < (v :: vs).length := by simpa using hj
        have h2 := hspec.2.1 j (by rw [hlen]; exact hjlt)
        have hs := sims_getD q (v :: vs) j hjlt
        simp only [List.map_cons] at hs
        rw [← hs]
        simpa using h2
      · intro j hj
        have hjidx : j < argmax (dotL v q / (normL v * normL q + eps) ::
            vs.map (fun w => dotL w q / (normL w * normL q + eps))) := by simpa using hj
        have hjlt : j < (v :: vs).length := by
          have := lt_trans hjidx (lt_of_lt_of_le hspec.1 (le_of_eq hlen))
          simpa using this
        have h2 := hspec.2.2 j hjidx
        have hs := sims_getD q (v :: vs) j hjlt
        simp only [List.map_cons] at hs
        rw [← hs]
        simpa using h2

/-- C3, witness: a concrete two-entry one-dimensional store and matching
query on which the theorem instantiates. -/
theorem c3_similarity_argmax_witness :
    ∃ r, find_most_similar (⟨none, "m", [[1], [2]], ["a", "b"]⟩ : PState ℝ) [1] = .ok r ∧
      r.index < (⟨none, "m", [[1], [2]], ["a", "b"]⟩ : PState ℝ).embeddings.length ∧
      r.similarity_score =
        dotL [1] ((⟨none, "m", [[1], [2]], ["a", "b"]⟩ : PState ℝ).embeddings.getD r.index []) /
          (normL [1] *
            normL ((⟨none, "m", [[1], [2]], ["a", "b"]⟩ : PState ℝ).embeddings.getD r.index []) +
            eps) ∧
      (∀ j, j < (⟨none, "m", [[1], [2]], ["a", "b"]⟩ : PState ℝ).embeddings.length →
        dotL [1] ((⟨none, "m", [[1], [2]], ["a", "b"]⟩ : PState ℝ).embeddings.getD j []) /
          (normL [1] *
            normL ((⟨none, "m", [[1], [2]], ["a", "b"]⟩ : PState ℝ).embeddings.getD j []) +
            eps) ≤
          r.similarity_score) ∧
      ∀ j, j < r.index →
        dotL [1] ((⟨none, "m", [[1], [2]], ["a", "b"]⟩ : PState ℝ).embeddings.getD j []) /
          (normL [1] *
            normL ((⟨none, "m", [[1], [2]], ["a", "b"]⟩ : PState ℝ).embeddings.getD j []) +
            eps) <
          r.similarity_score :=
  c3_similarity_argmax ⟨none, "m", [[1], [2]], ["a", "b"]⟩ [1] (by simp) rfl rfl rfl
